import Mathlib

/-!
Shallow embedding of the certificate-analysis core of `src/testing.py`:
the tier/score composer (`compute_certificate_tier`), the lexical signal
extractors (`find_verification_link`, `extract_time_commitment`,
`detect_keywords`), the issuer resolver (`fuzzy_lookup_issuer`), the
verification classifier (`guess_verification_method`), the skill tagger
(`extract_skills`) and the pure part of the feature assembler
(`analyze_certificate` after text extraction).

Modelling conventions: Python floats are modelled as exact rationals;
`dict.get` defaults become structure field defaults; the rapidfuzz
`extractOne` call is an external library and is modelled as an abstract
function parameter; strings are handled through their character lists
with an ASCII model of `str.lower`, `\s`, `\w`, `\d` and `\b`.
-/

namespace Cert

/-- ASCII model of Python whitespace (the `\s` class and `str.strip`). -/
def pyWs (c : Char) : Bool :=
  c == ' ' || c == '\t' || c == '\n' || c == '\r' || c == '\x0b' || c == '\x0c'

/-- Python `str.lower` on a character list (ASCII model). -/
def lowerL (l : List Char) : List Char := l.map Char.toLower

/-- Test whether `pat` occurs as a contiguous substring of the list (Python `pat in hay`). -/
def subL (pat : List Char) : List Char → Bool
  | [] => pat.isEmpty
  | c :: t => pat.isPrefixOf (c :: t) || subL pat t

/-- Python `pat in hay` on strings. -/
def pyIn (pat hay : String) : Bool := subL pat.data hay.data

/-- Python `str.lower` (ASCII model). -/
def pyLower (s : String) : String := String.mk (lowerL s.data)

/-- Round half to even to an integer, as Python's builtin `round`. -/
def roundHE (x : ℚ) : ℤ :=
  if x - ⌊x⌋ < 1/2 then ⌊x⌋
  else if 1/2 < x - ⌊x⌋ then ⌊x⌋ + 1
  else if Even ⌊x⌋ then ⌊x⌋ else ⌊x⌋ + 1

/-- Python `round(x, 2)`. -/
def round2 (x : ℚ) : ℚ := (roundHE (x * 100) : ℚ) / 100

theorem roundHE_ge_floor (x : ℚ) : ⌊x⌋ ≤ roundHE x := by
  unfold roundHE; split_ifs <;> omega

theorem roundHE_le_floor_add_one (x : ℚ) : roundHE x ≤ ⌊x⌋ + 1 := by
  unfold roundHE; split_ifs <;> omega

theorem roundHE_mono {x y : ℚ} (h : x ≤ y) : roundHE x ≤ roundHE y := by
  rcases eq_or_lt_of_le (Int.floor_mono h) with hf | hf
  · unfold roundHE
    rw [hf]
    split_ifs <;> first | omega | linarith
  · calc roundHE x ≤ ⌊x⌋ + 1 := roundHE_le_floor_add_one x
    _ ≤ ⌊y⌋ := by omega
    _ ≤ roundHE y := roundHE_ge_floor y

theorem round2_mono {x y : ℚ} (h : x ≤ y) : round2 x ≤ round2 y := by
  unfold round2
  have : roundHE (x * 100) ≤ roundHE (y * 100) := roundHE_mono (by linarith)
  have : ((roundHE (x * 100) : ℚ)) ≤ (roundHE (y * 100) : ℚ) := by exact_mod_cast this
  linarith

theorem roundHE_intCast (n : ℤ) : roundHE (n : ℚ) = n := by
  unfold roundHE
  rw [Int.floor_intCast]
  norm_num

theorem round2_zero : round2 0 = 0 := by
  have h : (0 : ℚ) * 100 = ((0 : ℤ) : ℚ) := by norm_num
  rw [round2, h, roundHE_intCast]
  norm_num

theorem round2_hundred : round2 100 = 100 := by
  have h : (100 : ℚ) * 100 = ((10000 : ℤ) : ℚ) := by norm_num
  rw [round2, h, roundHE_intCast]
  norm_num

/-- The issuer reputation table `ISSUER_DB` (`src/testing.py` lines 26-36),
in definition order. -/
def ISSUER_DB : List (String × ℤ) :=
  [("udemy", 20), ("coursera", 30), ("edx", 40), ("aws", 80), ("google", 75),
   ("microsoft", 75), ("linkedin", 25), ("kaggle", 50), ("pluralsight", 35),
   ("datacamp", 30), ("simplilearn", 25), ("harvard", 95), ("stanford", 95),
   ("mit", 95), ("iit", 95), ("oxford", 90), ("cambridge", 90), ("yale", 90),
   ("princeton", 90), ("columbia", 90), ("caltech", 95), ("cornell", 90),
   ("ucla", 85), ("nyu", 85), ("geeksforgeeks", 20), ("codechef", 20),
   ("hackerrank", 20), ("leetcode", 20), ("freecodecamp", 15), ("sololearn", 15),
   ("nptel", 40), ("greatlearning", 25), ("upgrad", 25), ("coursera-google", 75),
   ("coursera-aws", 80), ("aws-developer", 80), ("google-ai", 75), ("deepmind", 85),
   ("ibm", 70), ("oracle", 65), ("sap", 60), ("accenture", 50), ("tcs", 50),
   ("infosys", 50), ("wipro", 50), ("capgemini", 50), ("nasa", 95), ("spacex", 95),
   ("tesla", 90), ("facebook", 75), ("meta", 75), ("twitter", 70), ("apple", 80),
   ("geeksforgeeks-cs", 20)]

/-- The alias table `ISSUER_ALIASES` (lines 38-46), in definition order. -/
def ISSUER_ALIASES : List (String × String) :=
  [("bm developer skills network", "ibm"), ("ibm skills", "ibm"),
   ("oracle university", "oracle"), ("geeksforgeeks", "geeksforgeeks"),
   ("gfg", "geeksforgeeks"), ("coursera google", "coursera-google"),
   ("coursera aws", "coursera-aws")]

/-- Python `dict.get(key, default)` on an association list. -/
def dictGet (db : List (String × ℤ)) (key : String) (dflt : ℤ) : ℤ :=
  match db.find? (fun p => p.1 == key) with
  | some p => p.2
  | none => dflt

/-- The feature mapping consumed by `compute_certificate_tier` (lines 160-166):
the `features.get` defaults are the field defaults, and numeric fields are
arbitrary rationals since a caller may pass out-of-range values. -/
structure Features where
  issuer_rep : ℚ := 25
  duration_hours : ℚ := 0
  assessment_rigor : ℚ := 20
  has_project : ℤ := 0
  project_complexity : ℚ := 0
  prerequisites_required : ℤ := 0
  industry_recognition : ℚ := 20
  verified : Bool := false
deriving DecidableEq

/-- The value returned by `compute_certificate_tier` (line 185). -/
structure ScoreResult where
  score : ℚ
  tier : ℤ
deriving DecidableEq

/-- The `time_score` of line 167: `max(0, min(100, (time_h/200.0)*100))`. -/
def time_score (f : Features) : ℚ := max 0 (min 100 (f.duration_hours / 200 * 100))

/-- The weighted composite of lines 168-179, verify bonus included. -/
def composite (f : Features) : ℚ :=
  f.issuer_rep * 0.35 +
  f.assessment_rigor * 0.25 +
  (if f.has_project ≠ 0 then f.project_complexity else 0) * 0.20 +
  time_score f * 0.10 +
  f.industry_recognition * 0.10 +
  ((f.prerequisites_required : ℚ) * 100) * 0.0 +
  (if f.verified then 10 else 0)

/-- The clamped `score = max(0, min(100, composite))` of line 180, before rounding. -/
def raw_score (f : Features) : ℚ := max 0 (min 100 (composite f))

/-- The tier thresholds of lines 181-184, applied to the unrounded score. -/
def tier_of (score : ℚ) : ℤ :=
  if 80 ≤ score then 1 else if 60 ≤ score then 2 else if 40 ≤ score then 3 else 4

/-- Model of `compute_certificate_tier` (lines 158-185).  The `issuer_db` argument is
defaulted to `ISSUER_DB` as on line 159 and is otherwise unused. -/
def compute_certificate_tier (features : Features)
    (issuer_db : Option (List (String × ℤ)) := none) : ScoreResult :=
  let _db := issuer_db.getD ISSUER_DB
  { score := round2 (raw_score features), tier := tier_of (raw_score features) }

theorem raw_score_nonneg (f : Features) : 0 ≤ raw_score f := le_max_left _ _

theorem raw_score_le_100 (f : Features) : raw_score f ≤ 100 :=
  max_le (by norm_num) (min_le_left _ _)

/-- C1: for every feature record, including out-of-range or negative field
values, the returned (2-decimal-rounded) score lies in [0, 100] and the
returned tier is one of 1, 2, 3, 4. -/
theorem composer_score_bounded_tier_valid (f : Features)
    (db : Option (List (String × ℤ))) :
    0 ≤ (compute_certificate_tier f db).score ∧
    (compute_certificate_tier f db).score ≤ 100 ∧
    ((compute_certificate_tier f db).tier = 1 ∨ (compute_certificate_tier f db).tier = 2 ∨
     (compute_certificate_tier f db).tier = 3 ∨ (compute_certificate_tier f db).tier = 4) := by
  refine ⟨?_, ?_, ?_⟩
  · have h := round2_mono (raw_score_nonneg f)
    rw [round2_zero] at h
    exact h
  · have h := round2_mono (raw_score_le_100 f)
    rw [round2_hundred] at h
    exact h
  · have h : (compute_certificate_tier f db).tier = tier_of (raw_score f) := rfl
    rw [h]
    unfold tier_of
    split_ifs <;> simp

/-- C9: `prerequisites_required` never affects the result: the `prereq`
weight in the table is 0.0, so any two values of the field give the same
score and tier. -/
theorem prerequisites_inert (f : Features) (db : Option (List (String × ℤ)))
    (p q : ℤ) :
    compute_certificate_tier { f with prerequisites_required := p } db =
    compute_certificate_tier { f with prerequisites_required := q } db := by
  have hz : ∀ r : ℤ, ((r : ℚ) * 100) * 0.0 = 0 := by intro r; norm_num
  simp only [compute_certificate_tier, raw_score, composite, time_score, hz]

theorem score_mono_of_composite_le {f g : Features}
    (db : Option (List (String × ℤ))) (h : composite f ≤ composite g) :
    (compute_certificate_tier f db).score ≤ (compute_certificate_tier g db).score := by
  show round2 (raw_score f) ≤ round2 (raw_score g)
  exact round2_mono (max_le_max le_rfl (min_le_min le_rfl h))

/-- C3: the score returned by `compute_certificate_tier` is monotonically
non-decreasing in each of `issuer_rep`, `assessment_rigor`,
`project_complexity` (when `has_project` is set), `duration_hours`,
`industry_recognition`, and in flipping `verified` from false to true,
all other fields held fixed. -/
theorem score_monotone (f : Features) (db : Option (List (String × ℤ))) :
    (∀ a b : ℚ, a ≤ b →
      (compute_certificate_tier { f with issuer_rep := a } db).score ≤
      (compute_certificate_tier { f with issuer_rep := b } db).score) ∧
    (∀ a b : ℚ, a ≤ b →
      (compute_certificate_tier { f with assessment_rigor := a } db).score ≤
      (compute_certificate_tier { f with assessment_rigor := b } db).score) ∧
    (f.has_project ≠ 0 → ∀ a b : ℚ, a ≤ b →
      (compute_certificate_tier { f with project_complexity := a } db).score ≤
      (compute_certificate_tier { f with project_complexity := b } db).score) ∧
    (∀ a b : ℚ, a ≤ b →
      (compute_certificate_tier { f with duration_hours := a } db).score ≤
      (compute_certificate_tier { f with duration_hours := b } db).score) ∧
    (∀ a b : ℚ, a ≤ b →
      (compute_certificate_tier { f with industry_recognition := a } db).score ≤
      (compute_certificate_tier { f with industry_recognition := b } db).score) ∧
    ((compute_certificate_tier { f with verified := false } db).score ≤
     (compute_certificate_tier { f with verified := true } db).score) := by
  refine ⟨?_, ?_, ?_, ?_, ?_, ?_⟩
  · intro a b hab
    apply score_mono_of_composite_le
    simp only [composite, time_score]
    linarith
  · intro a b hab
    apply score_mono_of_composite_le
    simp only [composite, time_score]
    linarith
  · intro hp a b hab
    apply score_mono_of_composite_le
    simp only [composite, time_score]
    rw [if_pos hp, if_pos hp]
    linarith
  · intro a b hab
    apply score_mono_of_composite_le
    simp only [composite, time_score]
    have h := max_le_max (le_refl (0 : ℚ))
      (min_le_min (le_refl (100 : ℚ)) (show a / 200 * 100 ≤ b / 200 * 100 by linarith))
    linarith
  · intro a b hab
    apply score_mono_of_composite_le
    simp only [composite, time_score]
    linarith
  · apply score_mono_of_composite_le
    simp only [composite, time_score]
    norm_num

/-- Witness for C3 at a concrete record, discharging the order hypotheses
and the `has_project` hypothesis. -/
theorem score_monotone_witness :
    (compute_certificate_tier { issuer_rep := 10, has_project := 1 } none).score ≤
      (compute_certificate_tier { issuer_rep := 20, has_project := 1 } none).score ∧
    (compute_certificate_tier { issuer_rep := 10, has_project := 1, project_complexity := 30 } none).score ≤
      (compute_certificate_tier { issuer_rep := 10, has_project := 1, project_complexity := 60 } none).score := by
  constructor
  · exact (score_monotone { issuer_rep := 10, has_project := 1 } none).1 10 20 (by norm_num)
  · exact (score_monotone { issuer_rep := 10, has_project := 1 } none).2.2.1
      (by norm_num) 30 60 (by norm_num)

/-- C2 counterexample: a feature record whose returned 2-decimal-rounded
score is exactly 80.00 but whose tier is 2, because the tier thresholds are
applied to the unrounded score (79.996 here) before rounding. -/
theorem rounded_score_80_tier_2 :
    (compute_certificate_tier
      { issuer_rep := 100, duration_hours := 248/25, assessment_rigor := 80,
        has_project := 1, project_complexity := 100, industry_recognition := 45 }
      none).score = 80 ∧
    (compute_certificate_tier
      { issuer_rep := 100, duration_hours := 248/25, assessment_rigor := 80,
        has_project := 1, project_complexity := 100, industry_recognition := 45 }
      none).tier = 2 := by
  norm_num [compute_certificate_tier, raw_score, composite, time_score, tier_of,
    round2, roundHE]

/-- C2 amended: the tier is a fixed threshold function of the unrounded
clamped composite score (`raw_score`), not of the rounded score returned:
`raw_score ≥ 80 → 1`, `≥ 60 → 2`, `≥ 40 → 3`, else `4`; a record engineered
so that the unrounded score is exactly 80.00 maps to tier 1 and 79.99 maps
to tier 2, with analogous exact boundaries at 60 and 40. -/
theorem tier_is_threshold_of_unrounded_score :
    (∀ (f : Features) (db : Option (List (String × ℤ))),
      (compute_certificate_tier f db).tier =
        if 80 ≤ raw_score f then 1 else if 60 ≤ raw_score f then 2
        else if 40 ≤ raw_score f then 3 else 4) ∧
    compute_certificate_tier
      { issuer_rep := 100, assessment_rigor := 100, has_project := 1,
        project_complexity := 100, industry_recognition := 0 } none =
      { score := 80, tier := 1 } ∧
    compute_certificate_tier
      { issuer_rep := 100, assessment_rigor := 2499/25, has_project := 1,
        project_complexity := 100, industry_recognition := 0 } none =
      { score := 79.99, tier := 2 } ∧
    compute_certificate_tier
      { issuer_rep := 100, assessment_rigor := 100, industry_recognition := 0 } none =
      { score := 60, tier := 2 } ∧
    compute_certificate_tier
      { issuer_rep := 100, assessment_rigor := 2499/25, industry_recognition := 0 } none =
      { score := 59.99, tier := 3 } ∧
    compute_certificate_tier
      { issuer_rep := 100, assessment_rigor := 0, industry_recognition := 50 } none =
      { score := 40, tier := 3 } ∧
    compute_certificate_tier
      { issuer_rep := 100, assessment_rigor := 0, industry_recognition := 499/10 } none =
      { score := 39.99, tier := 4 } := by
  refine ⟨fun f db => rfl, ?_, ?_, ?_, ?_, ?_, ?_⟩ <;>
    · rw [ScoreResult.mk.injEq]
      norm_num [compute_certificate_tier, raw_score, composite, time_score, tier_of,
        round2, roundHE]

/-- C10: `compute_certificate_tier` depends only on its `features` argument:
the `issuer_db` parameter (including the default `none`) is bound but never
consulted, so any two database arguments give the same result. -/
theorem issuer_db_ignored (f : Features) (db₁ db₂ : Option (List (String × ℤ))) :
    compute_certificate_tier f db₁ = compute_certificate_tier f db₂ := rfl

/-- Strip a (lowercase) literal `pat` from the front of `l`, case-insensitively,
returning the remainder; models matching a literal under `re.IGNORECASE`. -/
def stripCI (pat : String) (l : List Char) : Option (List Char) :=
  if lowerL (l.take pat.length) == pat.data then some (l.drop pat.length) else none

/-- Model of `fuzzy_lookup_issuer` (lines 111-119).  The rapidfuzz
`extractOne(text, keys, score_cutoff=30)` call is an external library and is
abstracted as the `fuzzy` parameter, returning the chosen key or `none`. -/
def fuzzy_lookup_issuer (fuzzy : String → List String → Option String)
    (ocr_text : String) (issuer_db : List (String × ℤ)) : Option String × ℤ :=
  let text := pyLower ocr_text
  match ISSUER_ALIASES.find? (fun p => pyIn p.1 text) with
  | some p => (some p.2, dictGet issuer_db p.2 25)
  | none =>
    match fuzzy text (issuer_db.map Prod.fst) with
    | some best => (some best, dictGet issuer_db best 25)
    | none => (none, 25)

/-- C4: if any alias of `ISSUER_ALIASES` occurs as a substring of the
lowercased text, the resolver returns the first such alias's canonical key
(in table definition order) and its reputation with default 25, and the
result does not depend on the fuzzy matcher at all. -/
theorem alias_short_circuits_fuzzy
    (fuzzy₁ fuzzy₂ : String → List String → Option String)
    (text : String) (db : List (String × ℤ))
    (h : ∃ p ∈ ISSUER_ALIASES, pyIn p.1 (pyLower text) = true) :
    ∃ a n, ISSUER_ALIASES.find? (fun p => pyIn p.1 (pyLower text)) = some (a, n) ∧
      fuzzy_lookup_issuer fuzzy₁ text db = (some n, dictGet db n 25) ∧
      fuzzy_lookup_issuer fuzzy₁ text db = fuzzy_lookup_issuer fuzzy₂ text db := by
  have hs : (ISSUER_ALIASES.find? (fun p => pyIn p.1 (pyLower text))).isSome := by
    rw [List.find?_isSome]
    exact h
  obtain ⟨⟨a, n⟩, hfind⟩ := Option.isSome_iff_exists.mp hs
  refine ⟨a, n, hfind, ?_, ?_⟩
  · simp only [fuzzy_lookup_issuer, hfind]
  · simp only [fuzzy_lookup_issuer, hfind]

/-- Witness for C4: the alias "oracle university" resolves to `oracle` with
default reputation 25 (the key is absent from the empty table), for two
different fuzzy matchers. -/
theorem alias_short_circuits_fuzzy_witness :
    fuzzy_lookup_issuer (fun _ _ => none) "Oracle University Course" [] =
      (some "oracle", 25) ∧
    fuzzy_lookup_issuer (fun _ _ => none) "Oracle University Course" [] =
      fuzzy_lookup_issuer (fun _ cs => cs.head?) "Oracle University Course" [] := by
  obtain ⟨a, n, hfind, h1, h2⟩ :=
    alias_short_circuits_fuzzy (fun _ _ => none) (fun _ cs => cs.head?)
      "Oracle University Course" []
      ⟨("oracle university", "oracle"), by decide, by decide⟩
  have he : ISSUER_ALIASES.find? (fun p => pyIn p.1 (pyLower "Oracle University Course")) =
      some ("oracle university", "oracle") := by decide
  have hpair := Option.some.inj (he.symm.trans hfind)
  cases hpair
  exact ⟨h1, h2⟩

/-- The unit alternatives of `TIME_REGEX` (line 21), in alternation order. -/
def TIME_UNITS : List String := ["hours", "hrs", "h", "weeks", "week", "months", "month"]

/-- Numeric value of a digit list. -/
def digitsVal (l : List Char) : ℕ := l.foldl (fun n c => 10 * n + (c.toNat - '0'.toNat)) 0

/-- Match `TIME_REGEX` at the head of `l`: a number `\d+\.?\d*`, optional
whitespace, an optional `total` qualifier and a unit from `TIME_UNITS`
(first alternative wins).  Returns the integer part, the fractional digits
value, the number of fractional digits, and the matched unit (lowercased,
as `m.group(2).lower()` on line 125).  Greedy matching is equivalent to
backtracking here: digits never start a unit, whitespace never starts
`total` or a unit, and a unit never starts with `t` or `.`. -/
def matchTimeAt (l : List Char) : Option (ℕ × ℕ × ℕ × String) :=
  let d1 := l.takeWhile Char.isDigit
  if d1.isEmpty then none else
  let r1 := l.drop d1.length
  let r1' := match r1 with
    | '.' :: t => t
    | _ => r1
  let d2 := r1'.takeWhile Char.isDigit
  let r2 := r1'.drop d2.length
  let r3 := r2.dropWhile pyWs
  let r4 := match stripCI "total" r3 with
    | some rest => rest.dropWhile pyWs
    | none => r3
  (TIME_UNITS.find? (fun u => (stripCI u r4).isSome)).map
    (fun u => (digitsVal d1, digitsVal d2, d2.length, u))

/-- Leftmost search of `TIME_REGEX`, as `re.search` on line 122. -/
def searchTime : List Char → Option (ℕ × ℕ × ℕ × String)
  | [] => none
  | c :: t =>
    match matchTimeAt (c :: t) with
    | some r => some r
    | none => searchTime t

/-- Model of `extract_time_commitment` (lines 121-128): the first match's value
(`float(m.group(1))` modelled exactly as a rational) scaled by 10 for week
units and 40 for month units. -/
def extract_time_commitment (ocr_text : String) : ℚ :=
  match searchTime ocr_text.data with
  | none => 0
  | some (n, m, k, u) =>
    let val : ℚ := (n : ℚ) + (m : ℚ) / (10 : ℚ) ^ k
    if pyIn "week" u then val * 10 else if pyIn "month" u then val * 40 else val

theorem matchTimeAt_unit (l : List Char) (n m k : ℕ) (u : String)
    (h : matchTimeAt l = some (n, m, k, u)) : u ∈ TIME_UNITS := by
  simp only [matchTimeAt] at h
  split_ifs at h
  rw [Option.map_eq_some'] at h
  obtain ⟨a, hfind, heq⟩ := h
  have : a = u := congrArg (fun p => p.2.2.2) heq
  exact this ▸ List.mem_of_find?_eq_some hfind

theorem searchTime_unit (t : List Char) (n m k : ℕ) (u : String)
    (h : searchTime t = some (n, m, k, u)) : u ∈ TIME_UNITS := by
  induction t with
  | nil => simp [searchTime] at h
  | cons c tl ih =>
    rw [searchTime] at h
    cases hm : matchTimeAt (c :: tl) with
    | none => rw [hm] at h; exact ih h
    | some r =>
      rw [hm] at h
      cases h
      exact matchTimeAt_unit _ _ _ _ _ hm

/-- C6: the time-commitment parser uses only the first match of a number
followed by an optional `total` and a unit from `TIME_UNITS`, converting
weeks to 10 hours each and months to 40 hours each and leaving hour-like
units unchanged: "3 weeks" gives 30, "2 months" gives 80, "10 hours" gives
10, text with no duration phrase gives 0, and in "2 h and 3 weeks" only the
first match "2 h" is used. -/
theorem time_commitment_first_match_units :
    extract_time_commitment "3 weeks" = 30 ∧
    extract_time_commitment "2 months" = 80 ∧
    extract_time_commitment "10 hours" = 10 ∧
    extract_time_commitment "Certificate of Completion" = 0 ∧
    extract_time_commitment "2 h and 3 weeks" = 2 ∧
    (∀ (t : String) (n m k : ℕ) (u : String),
      searchTime t.data = some (n, m, k, u) → u ∈ TIME_UNITS) := by
  refine ⟨?_, ?_, ?_, ?_, ?_, fun t n m k u h => searchTime_unit _ _ _ _ _ h⟩
  · have h : searchTime "3 weeks".data = some (3, 0, 0, "weeks") := by decide
    simp only [extract_time_commitment, h,
      show pyIn "week" "weeks" = true by decide, if_true]
    norm_num
  · have h : searchTime "2 months".data = some (2, 0, 0, "months") := by decide
    simp only [extract_time_commitment, h,
      show pyIn "week" "months" = false by decide,
      show pyIn "month" "months" = true by decide, if_true, Bool.false_eq_true, if_false]
    norm_num
  · have h : searchTime "10 hours".data = some (10, 0, 0, "hours") := by decide
    simp only [extract_time_commitment, h,
      show pyIn "week" "hours" = false by decide,
      show pyIn "month" "hours" = false by decide, Bool.false_eq_true, if_false]
    norm_num
  · have h : searchTime "Certificate of Completion".data = none := by decide
    simp only [extract_time_commitment, h]
  · have h : searchTime "2 h and 3 weeks".data = some (2, 0, 0, "h") := by decide
    simp only [extract_time_commitment, h,
      show pyIn "week" "h" = false by decide,
      show pyIn "month" "h" = false by decide, Bool.false_eq_true, if_false]
    norm_num

/-- Witness for C6's quantified conjunct at a concrete input. -/
theorem time_commitment_first_match_units_witness :
    ("weeks" : String) ∈ TIME_UNITS :=
  time_commitment_first_match_units.2.2.2.2.2 "3 weeks" 3 0 0 "weeks" (by decide)

/-- ASCII model of the regex `\w` class (word character). -/
def isWordChar (c : Char) : Bool := c.isAlphanum || c == '_'

/-- Python `str.strip()` on a character list. -/
def pyStrip (l : List Char) : List Char :=
  ((l.dropWhile pyWs).reverse.dropWhile pyWs).reverse

/-- Length of a match of the first `GENERIC_VERIFY_REGEX` alternative
`https?:\/\/[^\s]+` (line 20) at the head of `l`, under `re.IGNORECASE`.
The optional `s` needs no backtracking: when an `s` follows `http`, the
no-`s` path would require `:` where the text has `s`. -/
def urlMatchLen (l : List Char) : Option ℕ :=
  match stripCI "http" l with
  | none => none
  | some r =>
    match r with
    | [] => none
    | c :: t =>
      if c.toLower == 's' then
        match stripCI "://" t with
        | some rest =>
          let run := rest.takeWhile (fun ch => !pyWs ch)
          if run.isEmpty then none else some (8 + run.length)
        | none => none
      else
        match stripCI "://" r with
        | some rest =>
          let run := rest.takeWhile (fun ch => !pyWs ch)
          if run.isEmpty then none else some (7 + run.length)
        | none => none

/-- Length of a match of the second alternative `\b[A-Z0-9]{5,12}\b` at the
head of `l` given the preceding character, under `re.IGNORECASE` (so the
class also matches lowercase letters).  Since every class character is a
word character, the trailing `\b` can only hold at the end of the maximal
alphanumeric run, so the greedy `{5,12}` matches exactly that run, and only
when its length is between 5 and 12. -/
def codeMatchLen (prev : Option Char) (l : List Char) : Option ℕ :=
  let run := l.takeWhile Char.isAlphanum
  let n := run.length
  let boundaryBefore : Bool := match prev with | none => true | some p => !isWordChar p
  let boundaryAfter : Bool := match l.drop n with | [] => true | c :: _ => !isWordChar c
  if 5 ≤ n ∧ n ≤ 12 ∧ boundaryBefore = true ∧ boundaryAfter = true then some n else none

/-- Match of `GENERIC_VERIFY_REGEX` at one position: the URL alternative is
tried first, as in the regex alternation. -/
def matchLenAt (prev : Option Char) (l : List Char) : Option ℕ :=
  match urlMatchLen l with
  | some n => some n
  | none => codeMatchLen prev l

/-- Leftmost scan of `GENERIC_VERIFY_REGEX`, carrying the previous character
for the `\b` check.  The pattern cannot match the empty suffix (it needs at
least five characters or an URL scheme), so the scan stops at `[]`. -/
def searchVerify (prev : Option Char) : List Char → Option (List Char)
  | [] => none
  | c :: t =>
    match matchLenAt prev (c :: t) with
    | some n => some ((c :: t).take n)
    | none => searchVerify (some c) t

/-- Model of `find_verification_link` (lines 107-109): the first match of
`GENERIC_VERIFY_REGEX`, stripped. -/
def find_verification_link (text : String) : Option String :=
  (searchVerify none text.data).map (fun m => String.mk (pyStrip m))

/-- The character preceding position `i`, given the character preceding the
whole list. -/
def prevAt (prev : Option Char) (l : List Char) (i : ℕ) : Option Char :=
  if i = 0 then prev else l.get? (i - 1)

theorem prevAt_cons (prev : Option Char) (c : Char) (t : List Char) (i : ℕ) :
    prevAt prev (c :: t) (i + 1) = prevAt (some c) t i := by
  unfold prevAt
  cases i with
  | zero => simp
  | succ k => simp

theorem matchLenAt_nil (p : Option Char) : matchLenAt p [] = none := by
  cases p <;> rfl

theorem searchVerify_first (i : ℕ) :
    ∀ (l : List Char) (prev : Option Char) (n : ℕ),
      matchLenAt (prevAt prev l i) (l.drop i) = some n →
      (∀ j, j < i → matchLenAt (prevAt prev l j) (l.drop j) = none) →
      searchVerify prev l = some ((l.drop i).take n) := by
  induction i with
  | zero =>
    intro l prev n h _
    have h' : matchLenAt prev l = some n := by simpa [prevAt] using h
    cases l with
    | nil => rw [matchLenAt_nil] at h'; cases h'
    | cons c t =>
      unfold searchVerify
      rw [h']
      simp
  | succ i ih =>
    intro l prev n h hnone
    have h0 : matchLenAt prev l = none := by
      simpa [prevAt] using hnone 0 (Nat.succ_pos i)
    cases l with
    | nil =>
      rw [List.drop_nil, matchLenAt_nil] at h
      cases h
    | cons c t =>
      unfold searchVerify
      rw [h0]
      have hmain : matchLenAt (prevAt (some c) t i) (t.drop i) = some n := by
        rw [← prevAt_cons prev c t i]
        exact h
      have hrest : ∀ j, j < i → matchLenAt (prevAt (some c) t j) (t.drop j) = none := by
        intro j hj
        have := hnone (j + 1) (by omega)
        rwa [prevAt_cons] at this
      exact ih t (some c) n hmain hrest

theorem searchVerify_none :
    ∀ (l : List Char) (prev : Option Char),
      (∀ i, matchLenAt (prevAt prev l i) (l.drop i) = none) →
      searchVerify prev l = none := by
  intro l
  induction l with
  | nil => intro prev _; rfl
  | cons c t ih =>
    intro prev h
    have h0 : matchLenAt prev (c :: t) = none := by simpa [prevAt] using h 0
    unfold searchVerify
    rw [h0]
    exact ih (some c) (fun i => by have := h (i + 1); rwa [prevAt_cons] at this)

/-- Match of `GENERIC_VERIFY_REGEX` at position `i` of a string. -/
def matchLenPos (s : String) (i : ℕ) : Option ℕ :=
  matchLenAt (prevAt none s.data i) (s.data.drop i)

/-- C7 counterexample: the claim predicts absence for text containing no
HTTP(S) URL and no run of 5-12 *uppercase* letters or digits, but the regex
is compiled with `re.IGNORECASE`, so the bare word "hello" (5 lowercase
letters) is returned as a verification code. -/
theorem lowercase_code_matches :
    find_verification_link "hello" = some "hello" := by decide

/-- C7 amended: the finder returns the first match in document order,
trimmed, of either an HTTP(S) URL with no embedded whitespace or a bare
word-bounded code of 5 to 12 letters or digits of any case (the regex is
case-insensitive), and returns `none` when neither pattern occurs. -/
theorem verify_link_first_match_ci :
    (∀ (s : String) (i n : ℕ),
      matchLenPos s i = some n →
      (∀ j, j < i → matchLenPos s j = none) →
      find_verification_link s = some (String.mk (pyStrip ((s.data.drop i).take n)))) ∧
    (∀ s : String, (∀ i, matchLenPos s i = none) → find_verification_link s = none) ∧
    find_verification_link "code abcde12345 and ABCDE" = some "abcde12345" ∧
    find_verification_link "see https://ex.co/verify?x=1 now" = some "https://ex.co/verify?x=1" ∧
    find_verification_link "only tiny ab12 x1" = none ∧
    find_verification_link "toolongcode1234567 yes" = none := by
  refine ⟨?_, ?_, by decide, by decide, by decide, by decide⟩
  · intro s i n h hnone
    unfold find_verification_link
    rw [searchVerify_first i s.data none n h hnone]
    rfl
  · intro s h
    unfold find_verification_link
    rw [searchVerify_none s.data none h]
    rfl

/-- Witness for C7's amended first-match property at a concrete input. -/
theorem verify_link_first_match_ci_witness :
    find_verification_link "VERIFY12345" = some "VERIFY12345" := by
  have h := verify_link_first_match_ci.1 "VERIFY12345" 0 11 (by decide)
    (fun j hj => absurd hj (Nat.not_lt_zero j))
  rw [h]
  decide

theorem stripCI_eq (pat : String) (l r : List Char) (h : stripCI pat l = some r) :
    lowerL (l.take pat.length) = pat.data := by
  unfold stripCI at h
  split_ifs at h with hp
  exact beq_iff_eq.mp hp

theorem pyWs_cases (c : Char) (h : pyWs c = true) :
    c = ' ' ∨ c = '\t' ∨ c = '\n' ∨ c = '\r' ∨ c = '\x0b' ∨ c = '\x0c' := by
  simpa [pyWs, or_assoc] using h

theorem pyWs_toLower_fix (c : Char) (h : pyWs c = true) : c.toLower = c := by
  rcases pyWs_cases c h with rfl | rfl | rfl | rfl | rfl | rfl <;> decide

theorem not_pyWs_of_alnum (c : Char) (h : c.isAlphanum = true) : pyWs c = false := by
  cases hw : pyWs c with
  | false => rfl
  | true =>
    exfalso
    rcases pyWs_cases c hw with rfl | rfl | rfl | rfl | rfl | rfl <;> simp at h

theorem urlMatchLen_some (l : List Char) (n : ℕ) (h : urlMatchLen l = some n) :
    1 ≤ n ∧ ∃ c t, l = c :: t ∧ pyWs c = false := by
  unfold urlMatchLen at h
  cases hs : stripCI "http" l with
  | none => rw [hs] at h; cases h
  | some r =>
    rw [hs] at h
    have hpre := stripCI_eq "http" l r hs
    have hhead : ∃ c t, l = c :: t ∧ pyWs c = false := by
      cases l with
      | nil => simp [lowerL] at hpre
      | cons c t =>
        refine ⟨c, t, rfl, ?_⟩
        rw [show ("http".length : ℕ) = 3 + 1 from rfl, List.take_succ_cons] at hpre
        simp only [lowerL, List.map_cons] at hpre
        have hc : c.toLower = 'h' := (List.cons.injEq _ _ _ _ ▸ hpre).1
        cases hw : pyWs c with
        | false => rfl
        | true =>
          exfalso
          have := pyWs_toLower_fix c hw
          rw [this] at hc
          subst hc
          simp [pyWs] at hw
    refine ⟨?_, hhead⟩
    cases r with
    | nil => simp at h
    | cons c t =>
      dsimp only at h
      split_ifs at h with hc
      · cases hs2 : stripCI "://" t with
        | none => rw [hs2] at h; simp at h
        | some rest =>
          rw [hs2] at h
          dsimp only at h
          split_ifs at h
          cases h
          omega
      · cases hs2 : stripCI "://" (c :: t) with
        | none => rw [hs2] at h; simp at h
        | some rest =>
          rw [hs2] at h
          dsimp only at h
          split_ifs at h
          cases h
          omega

theorem codeMatchLen_some (p : Option Char) (l : List Char) (n : ℕ)
    (h : codeMatchLen p l = some n) :
    1 ≤ n ∧ ∃ c t, l = c :: t ∧ pyWs c = false := by
  simp only [codeMatchLen] at h
  split_ifs at h with hc
  obtain ⟨h5, -, -, -⟩ := hc
  injection h with hn
  subst hn
  refine ⟨by omega, ?_⟩
  cases l with
  | nil => simp at h5
  | cons c t =>
    refine ⟨c, t, rfl, ?_⟩
    by_cases ha : c.isAlphanum = true
    · exact not_pyWs_of_alnum c ha
    · exfalso
      rw [List.takeWhile_cons, if_neg ha] at h5
      simp at h5

theorem matchLenAt_some (p : Option Char) (l : List Char) (n : ℕ)
    (h : matchLenAt p l = some n) :
    1 ≤ n ∧ ∃ c t, l = c :: t ∧ pyWs c = false := by
  unfold matchLenAt at h
  cases hu : urlMatchLen l with
  | none => rw [hu] at h; exact codeMatchLen_some p l n h
  | some k =>
    rw [hu] at h
    cases h
    exact urlMatchLen_some l n hu

theorem searchVerify_some_nonws :
    ∀ (l : List Char) (prev : Option Char) (m : List Char),
      searchVerify prev l = some m → ∃ c, c ∈ m ∧ pyWs c = false := by
  intro l
  induction l with
  | nil => intro prev m h; simp [searchVerify] at h
  | cons c t ih =>
    intro prev m h
    unfold searchVerify at h
    cases hm : matchLenAt prev (c :: t) with
    | none => rw [hm] at h; exact ih (some c) m h
    | some n =>
      rw [hm] at h
      have hmn := Option.some.inj h
      obtain ⟨h1, c', t', heq, hws⟩ := matchLenAt_some prev (c :: t) n hm
      injection heq with hc ht
      refine ⟨c, ?_, hc ▸ hws⟩
      rw [← hmn]
      cases n with
      | zero => omega
      | succ k =>
        rw [List.take_succ_cons]
        exact List.mem_cons_self c _

theorem pyStrip_ne_nil (m : List Char) (hex : ∃ c, c ∈ m ∧ pyWs c = false) :
    pyStrip m ≠ [] := by
  obtain ⟨c, hc, hw⟩ := hex
  intro hnil
  unfold pyStrip at hnil
  rw [List.reverse_eq_nil_iff] at hnil
  have hall := List.dropWhile_eq_nil_iff.mp hnil
  have hcd : c ∈ m.dropWhile pyWs := by
    have hsplit := List.takeWhile_append_dropWhile pyWs m
    have hmem : c ∈ m.takeWhile pyWs ∨ c ∈ m.dropWhile pyWs := by
      rw [← List.mem_append, hsplit]
      exact hc
    rcases hmem with h1 | h1
    · exact absurd (List.mem_takeWhile_imp h1) (by simp [hw])
    · exact h1
  have : pyWs c = true := hall c (List.mem_reverse.mpr hcd)
  rw [hw] at this
  cases this

theorem find_verification_link_some_ne (s : String) (l : String)
    (h : find_verification_link s = some l) : l ≠ "" := by
  unfold find_verification_link at h
  rw [Option.map_eq_some'] at h
  obtain ⟨m, hm, hl⟩ := h
  have hne := pyStrip_ne_nil m (searchVerify_some_nonws s.data none m hm)
  intro hempty
  rw [← hl] at hempty
  exact hne (congrArg String.data hempty)

/-- The keyword lists of lines 48-50. -/
def PROJECT_KEYWORDS : List String :=
  ["capstone", "project", "portfolio", "hands-on", "lab", "practical"]

def ASSESSMENT_KEYWORDS : List String :=
  ["exam", "proctored", "invigilat", "graded", "assess", "final exam", "passing"]

def PREREQ_KEYWORDS : List String :=
  ["prerequisite", "prereq", "prior knowledge", "experience required", "requirement"]

/-- Model of `detect_keywords` (lines 130-132). -/
def detect_keywords (ocr_text : String) (keywords : List String) : Bool :=
  keywords.any (fun k => pyIn k (pyLower ocr_text))

/-- The link keywords of line 141. -/
def VERIFY_WORDS : List String := ["verify", "certificate", "registry", "credentials"]

/-- Model of `guess_verification_method` (lines 134-144).  Python's `if
verification_link:` is truthiness: both `None` and the empty string fall
through to `"none"`. -/
def guess_verification_method (ocr_text : String)
    (verification_link : Option String) : String :=
  let text := pyLower ocr_text
  if pyIn "proct" text || pyIn "invigil" text then "proctored"
  else if pyIn "blockchain" text then "blockchain"
  else
    match verification_link with
    | some l =>
      if l ≠ "" then
        if VERIFY_WORDS.any (fun x => pyIn x (pyLower l)) then "registry"
        else "simple_link"
      else "none"
    | none => "none"

/-- Python `x or default` on an optional string (empty string is falsy). -/
def pyOrStr (o : Option String) (dflt : String) : String :=
  match o with
  | some s => if s ≠ "" then s else dflt
  | none => dflt

/-- Python `bool(x)` on an optional string. -/
def pyTruthy (o : Option String) : Bool :=
  match o with
  | some s => s != ""
  | none => false

/-- The features dictionary assembled by `analyze_certificate`
(lines 215-231). -/
structure AssembledFeatures where
  issuer : String
  issuer_rep : ℤ
  duration_hours : ℚ
  has_project : ℤ
  project_complexity : ℚ
  assessment_rigor : ℚ
  prerequisites_required : ℤ
  industry_recognition : ℤ
  verified : Bool
  verification_reason : String
  tag_project : Bool
  tag_assessment : Bool
  tag_prerequisite : Bool

/-- The pure feature-assembly part of `analyze_certificate` (lines 196-231),
from extracted text onwards; file decoding and OCR are external.  The fuzzy
matcher is abstracted as in `fuzzy_lookup_issuer`. -/
def analyze_features (fuzzy : String → List String → Option String)
    (text : String) (issuer_db : List (String × ℤ)) : AssembledFeatures :=
  let verification_link := find_verification_link text
  let issuer_res := fuzzy_lookup_issuer fuzzy text issuer_db
  let duration := extract_time_commitment text
  let project_present := detect_keywords text PROJECT_KEYWORDS
  let project_complexity : ℚ :=
    if project_present &&
        (pyIn "capstone" (pyLower text) || pyIn "portfolio" (pyLower text)) then 70
    else if project_present then 40 else 0
  let assessment_present := detect_keywords text ASSESSMENT_KEYWORDS
  let assessment_rigor : ℚ :=
    if pyIn "proct" (pyLower text) || pyIn "invigil" (pyLower text) then 80
    else if assessment_present then 60 else 20
  let prereq_present := detect_keywords text PREREQ_KEYWORDS
  let verified := pyTruthy verification_link
  let verification_reason := guess_verification_method text verification_link
  { issuer := pyOrStr issuer_res.1 "unknown",
    issuer_rep := issuer_res.2,
    duration_hours := duration,
    has_project := if project_present then 1 else 0,
    project_complexity := project_complexity,
    assessment_rigor := assessment_rigor,
    prerequisites_required := if prereq_present then 1 else 0,
    industry_recognition := issuer_res.2,
    verified := verified,
    verification_reason := verification_reason,
    tag_project := project_present,
    tag_assessment := assessment_present,
    tag_prerequisite := prereq_present }

theorem analyze_verified_eq_isSome (fuzzy : String → List String → Option String)
    (text : String) (db : List (String × ℤ)) :
    (analyze_features fuzzy text db).verified = (find_verification_link text).isSome := by
  show pyTruthy (find_verification_link text) = (find_verification_link text).isSome
  cases hf : find_verification_link text with
  | none => rfl
  | some l =>
    have hne := find_verification_link_some_ne text l hf
    simp [pyTruthy, hne]

/-- C5: the verification classifier decides by first match in order
(proctoring language, then blockchain, then the link: registry keywords or
plain link, else none), and the assembled record's `verified` flag is true
iff a verification link was found — so a `proctored` or `blockchain`
classification without a link still has `verified = false`. -/
theorem verification_classifier_and_verified_flag :
    (∀ (text : String) (link : Option String),
      (pyIn "proct" (pyLower text) || pyIn "invigil" (pyLower text)) = true →
      guess_verification_method text link = "proctored") ∧
    (∀ (text : String) (link : Option String),
      (pyIn "proct" (pyLower text) || pyIn "invigil" (pyLower text)) = false →
      pyIn "blockchain" (pyLower text) = true →
      guess_verification_method text link = "blockchain") ∧
    (∀ (text : String) (l : String),
      (pyIn "proct" (pyLower text) || pyIn "invigil" (pyLower text)) = false →
      pyIn "blockchain" (pyLower text) = false → l ≠ "" →
      guess_verification_method text (some l) =
        (if VERIFY_WORDS.any (fun x => pyIn x (pyLower l)) then "registry"
         else "simple_link")) ∧
    (∀ text : String,
      (pyIn "proct" (pyLower text) || pyIn "invigil" (pyLower text)) = false →
      pyIn "blockchain" (pyLower text) = false →
      guess_verification_method text none = "none") ∧
    (∀ (s l : String), find_verification_link s = some l → l ≠ "") ∧
    (∀ (fuzzy : String → List String → Option String) (text : String)
        (db : List (String × ℤ)),
      (analyze_features fuzzy text db).verified = (find_verification_link text).isSome) ∧
    (∀ (fuzzy : String → List String → Option String) (text : String)
        (db : List (String × ℤ)),
      find_verification_link text = none →
      ((analyze_features fuzzy text db).verification_reason = "proctored" ∨
       (analyze_features fuzzy text db).verification_reason = "blockchain") →
      (analyze_features fuzzy text db).verified = false) := by
  refine ⟨?_, ?_, ?_, ?_, find_verification_link_some_ne, analyze_verified_eq_isSome, ?_⟩
  · intro text link hcond
    simp only [guess_verification_method, hcond, if_true]
  · intro text link h1 h2
    simp only [guess_verification_method, h1, h2, Bool.false_eq_true, if_false, if_true]
  · intro text l h1 h2 hl
    simp only [guess_verification_method, h1, h2, Bool.false_eq_true, if_false]
    rw [if_pos hl]
  · intro text h1 h2
    simp only [guess_verification_method, h1, h2, Bool.false_eq_true, if_false]
  · intro fuzzy text db hnone _
    rw [analyze_verified_eq_isSome, hnone]
    rfl

/-- Witness for C5 at concrete inputs: proctoring language wins over a
present link, and a nonempty link with a registry keyword classifies as
registry. -/
theorem verification_classifier_witness :
    guess_verification_method "Proctored Exam Required" (some "https://abc.co") =
      "proctored" ∧
    guess_verification_method "Completion" (some "https://abc.co/verify") =
      "registry" := by
  constructor
  · exact verification_classifier_and_verified_flag.1 "Proctored Exam Required"
      (some "https://abc.co") (by decide)
  · have h := verification_classifier_and_verified_flag.2.2.1 "Completion"
      "https://abc.co/verify" (by decide) (by decide) (by decide)
    rw [h]
    decide

/-- The regex `\b` predicate between two adjacent positions: a boundary
holds iff exactly one side is a word character (absent counts as non-word). -/
def wordBoundary (a b : Option Char) : Bool :=
  (match a with | none => false | some c => isWordChar c) !=
  (match b with | none => false | some c => isWordChar c)

/-- Match of `\b<pat>\b` (the escaped lowercased skill, line 151) at the
head of `l`, given the preceding character. -/
def wordMatchAt (pat : List Char) (prev : Option Char) (l : List Char) : Bool :=
  pat.isPrefixOf l &&
  wordBoundary prev (match pat with | [] => l.head? | c :: _ => some c) &&
  wordBoundary (match pat.getLast? with | none => prev | some c => some c)
    ((l.drop pat.length).head?)

/-- Search as `re.search` of `\b<pat>\b`: some position of the text matches. -/
def hasWordMatch (pat : List Char) : Option Char → List Char → Bool
  | prev, [] => wordMatchAt pat prev []
  | prev, c :: t => wordMatchAt pat prev (c :: t) || hasWordMatch pat (some c) t

/-- Model of `extract_skills` (lines 146-153), parameterized by the external skill
vocabulary (`skills_db.json` is reference data outside the core).  Python
returns `list(set(found_skills))`, whose order is unspecified; the model
deduplicates the filtered vocabulary. -/
def extract_skills (skill_tags : List String) (text : String) : List String :=
  (skill_tags.filter
    (fun skill => hasWordMatch (lowerL skill.data) none (lowerL text.data))).dedup

/-- C8: the skill tagger matches vocabulary entries case-insensitively with
word boundaries on both ends and returns matched entries spelled exactly as
in the vocabulary with no duplicates: "R" does not match inside "AWS" or
"Director", while "Python" matches in "Python programming" and in uppercase
text. -/
theorem skills_whole_word_dedup :
    (∀ (vocab : List String) (text : String),
      (extract_skills vocab text).Nodup ∧
      ∀ s, s ∈ extract_skills vocab text → s ∈ vocab) ∧
    extract_skills ["R"] "AWS" = [] ∧
    extract_skills ["R"] "Director" = [] ∧
    extract_skills ["R"] "R programming" = ["R"] ∧
    extract_skills ["Python"] "Python programming" = ["Python"] ∧
    extract_skills ["Python"] "learn PYTHON now" = ["Python"] := by
  refine ⟨?_, by decide, by decide, by decide, by decide, by decide⟩
  intro vocab text
  exact ⟨List.nodup_dedup _,
    fun s hs => (List.mem_filter.mp (List.mem_dedup.mp hs)).1⟩

/-- Witness for C8's quantified conjunct at a concrete vocabulary and text. -/
theorem skills_whole_word_dedup_witness :
    (extract_skills ["Python", "SQL"] "Python and sql!").Nodup ∧
    ("Python" : String) ∈ (["Python", "SQL"] : List String) := by
  refine ⟨(skills_whole_word_dedup.1 ["Python", "SQL"] "Python and sql!").1, ?_⟩
  exact (skills_whole_word_dedup.1 ["Python", "SQL"] "Python and sql!").2
    "Python" (by decide)

end Cert
